import Mathlib

/-!
Verification of the resumable pagination protocol of the GA4GH backend
(`src/ga4gh/backend.py`): the page-token codec (`_parsePageToken`), the
anchor/distance interval iterator (`IntervalIterator`), the top-level
offset paginator (`_topLevelObjectGenerator`) and the paging loop of
`runSearchRequest`.

The shallow embedding translates the Python code into pure Lean functions:
the lazy search iterator becomes an explicit list held in the iterator
state, Python exceptions (`StopIteration`, `AssertionError`, and the typed
backend errors) become an explicit error type threaded with `Except`, and
Python integers become `Int`.  The external interval source
(`container.search(start, end)`, backed by htslib in the repository) is not
part of the source tree; it is modelled from the spec's collaborator
contract as an overlap query over a stored list of interval objects.
-/

deriving instance DecidableEq for Except

/-- An interval object: the capability interface `{start(), end()}` of the
spec, plus an identifier so that distinct objects sharing a start
coordinate can be told apart.  `stop` stands for the Python `end()`. -/
structure Obj where
  start : Int
  stop : Int
  uid : Nat
deriving DecidableEq, Repr

/-- The fields of a search request used by the interval iterator and by
`runSearchRequest`: the coordinate window, the page token and the page
size.  `stop` stands for `request.end`. -/
structure Request where
  start : Int
  stop : Int
  pageToken : Option String
  pageSize : Option Int
deriving DecidableEq, Repr

/-- The errors of the embedding: the typed backend exceptions raised by the
code under `src/ga4gh/backend.py` together with the raw Python exceptions
(`StopIteration` escaping a bare `next(...)` call, and a failed `assert`)
that the pick-up loops can raise. -/
inductive PyError where
  | stopIteration
  | assertionError
  | badPageToken
  | badPageSize (pageSize : Int)
deriving DecidableEq, Repr

/-- Modelled from the spec: the external source's range query
`container.search(start, end)` (§6).  It returns, in source order, the
stored objects overlapping the half-open window `[a, b)` — the "inclusive
boundary semantics" of §4.3 by which an object whose start lies below the
query's lower bound re-surfaces when its interval still overlaps it. -/
def search (source : List Obj) (a b : Int) : List Obj :=
  source.filter (fun o => decide (a < o.stop) && decide (o.start < b))

/-! ## The page-token codec (`_parsePageToken` and `"{}:{}".format`) -/

/-- Python str.split(":") on the token's characters: splitting on `:` always
yields one more field than there are colons, and `"".split(":") = [""]`. -/
def splitColon : List Char → List (List Char)
  | [] => [[]]
  | c :: cs =>
    if c = ':' then [] :: splitColon cs
    else
      match splitColon cs with
      | [] => [[c]]
      | f :: r => (c :: f) :: r

/-- The decimal value of a digit-character run, as `int` accumulates it;
`none` as soon as a non-digit appears. -/
def decDigitsVal : List Char → Nat → Option Nat
  | [], acc => some acc
  | c :: cs, acc =>
    if c.isDigit then decDigitsVal cs (10 * acc + (c.toNat - 48)) else none

/-- Leading and trailing whitespace stripped, as `int(str)` tolerates. -/
def trimWs (l : List Char) : List Char :=
  ((l.dropWhile Char.isWhitespace).reverse.dropWhile Char.isWhitespace).reverse

/-- The embedding of Python's `int(str)`: optional surrounding whitespace,
an optional sign, then a non-empty run of decimal digits. -/
def pyInt (l : List Char) : Option Int :=
  match trimWs l with
  | [] => none
  | c :: ds =>
    if c = '+' then
      if ds = [] then none else (decDigitsVal ds 0).map Int.ofNat
    else if c = '-' then
      if ds = [] then none else (decDigitsVal ds 0).map (fun n => -(n : Int))
    else (decDigitsVal (c :: ds) 0).map Int.ofNat

/-- Python 2's eager `map(int, tokens)`: every field parsed, the first
`ValueError` failing the whole list. -/
def mapPyInt : List (List Char) → Option (List Int)
  | [] => some []
  | t :: ts =>
    match pyInt t, mapPyInt ts with
    | some v, some vs => some (v :: vs)
    | _, _ => none

/-- The embedding of _parsePageToken(pageToken, numValues): split on `:`, reject a field
count different from `numValues`, then parse every field as an integer,
any failure raising `BadPageTokenException`. -/
def _parsePageToken (pageToken : String) (numValues : Nat) :
    Except PyError (List Int) :=
  if (splitColon pageToken.data).length ≠ numValues then .error .badPageToken
  else
    match mapPyInt (splitColon pageToken.data) with
    | none => .error .badPageToken
    | some values => .ok values

/-- The digit character of `n % 10`. -/
def digitChar (n : Nat) : Char :=
  match n with
  | 0 => '0' | 1 => '1' | 2 => '2' | 3 => '3' | 4 => '4'
  | 5 => '5' | 6 => '6' | 7 => '7' | 8 => '8' | _ => '9'

/-- Least-significant-first decimal digits of `n`; the fuel argument makes
the recursion structural, `n + 1` always sufficing. -/
def natDigitsRevAux : Nat → Nat → List Char
  | 0, _ => []
  | fuel + 1, n =>
    if n < 10 then [digitChar n]
    else digitChar (n % 10) :: natDigitsRevAux fuel (n / 10)

/-- Decimal digits of `n`, most significant first. -/
def natRepr10 (n : Nat) : List Char := (natDigitsRevAux (n + 1) n).reverse

/-- The embedding of Python's decimal rendering of an integer, as
`"{}:{}".format` and `str` produce it. -/
def intRepr (i : Int) : List Char :=
  if i < 0 then '-' :: natRepr10 (-i).toNat else natRepr10 i.toNat

/-- The token string "anchor:distance" that "{}:{}".format produces. -/
def encodeToken (a d : Int) : String :=
  ⟨intRepr a ++ ':' :: intRepr d⟩

/-- Python str(currentIndex) for the top-level paginator's token. -/
def natStr (n : Nat) : String := ⟨natRepr10 n⟩

/-! ## The interval iterator (`IntervalIterator`) -/

/-- The anchor bookkeeping of the iterator: `_searchAnchor` and
`_distanceFromAnchor`.  The Python code always assigns the two fields
together, so they are bundled; `none` stands for the `None`/`None` pair
they hold before a first result is seen. -/
structure AnchorState where
  searchAnchor : Int
  distanceFromAnchor : Int
deriving DecidableEq, Repr

/-- The fields of an `IntervalIterator`: the remaining results of the lazy
search iterator, the one-element lookahead buffer (`_currentObject`,
`_nextObject`) and the anchor state. -/
structure IterState where
  searchIterator : List Obj
  currentObject : Option Obj
  nextObject : Option Obj
  anchor : Option AnchorState
deriving DecidableEq, Repr

/-- Python's `next(iterator, None)`: the head and the rest, or `None` on an
exhausted iterator. -/
def takeNext : List Obj → Option Obj × List Obj
  | [] => (none, [])
  | x :: xs => (some x, xs)

/-- The embedding of `IntervalIterator._initialiseIteration`: query the
source over `(request.start, request.end)`, buffer the first two results,
anchor at `request.start` unless the first result starts beyond it. -/
def _initialiseIteration (source : List Obj) (req : Request) : IterState :=
  match search source req.start req.stop with
  | [] =>
    { searchIterator := [], currentObject := none, nextObject := none,
      anchor := none }
  | cur :: rest =>
    let (nxt, rest') := takeNext rest
    { searchIterator := rest', currentObject := some cur, nextObject := nxt,
      anchor :=
        some ⟨if cur.start > req.start then cur.start else req.start, 0⟩ }

/-- The skip loop `for _ in range(objectsToSkip): obj = next(it)` of the
`searchAnchor == request.start` branch: a bare `next` call, so exhaustion
raises `StopIteration`. -/
def skipN : Nat → Obj → List Obj → Except PyError (Obj × List Obj)
  | 0, obj, rest => .ok (obj, rest)
  | n + 1, _, rest =>
    match rest with
    | [] => .error .stopIteration
    | x :: xs => skipN n x xs

/-- The discard loop `while getStart(obj) < searchAnchor: obj = next(it)`:
drops the re-surfaced results of earlier tie-groups, raising
`StopIteration` if the source runs out first. -/
def discardBelow (searchAnchor : Int) : Obj → List Obj → Except PyError (Obj × List Obj)
  | obj, rest =>
    if obj.start < searchAnchor then
      match rest with
      | [] => .error .stopIteration
      | x :: xs => discardBelow searchAnchor x xs
    else .ok (obj, rest)

/-- The second skip loop of `_pickUpIteration`: each of the `objectsToSkip`
results stepped over is first checked by `assert getStart(obj) ==
searchAnchor`; a failed check is the fatal `AssertionError`, an exhausted
source the raw `StopIteration`. -/
def skipAtAnchor (searchAnchor : Int) : Nat → Obj → List Obj → Except PyError (Obj × List Obj)
  | 0, obj, rest => .ok (obj, rest)
  | n + 1, obj, rest =>
    if obj.start = searchAnchor then
      match rest with
      | [] => .error .stopIteration
      | x :: xs => skipAtAnchor searchAnchor n x xs
    else .error .assertionError

/-- The embedding of `IntervalIterator._pickUpIteration`: re-query the
source over `(searchAnchor, request.end)`, take a first result with a bare
`next`, then either skip `objectsToSkip` results unconditionally (anchor
still at `request.start`) or first discard the results starting below the
anchor and then skip `objectsToSkip` results asserted to start exactly at
it.  `range(objectsToSkip)` is empty for a non-positive count, hence
`Int.toNat`. -/
def _pickUpIteration (source : List Obj) (req : Request)
    (searchAnchor objectsToSkip : Int) : Except PyError IterState :=
  match search source searchAnchor req.stop with
  | [] => .error .stopIteration
  | obj :: rest =>
    let step :=
      if searchAnchor = req.start then
        skipN objectsToSkip.toNat obj rest
      else
        match discardBelow searchAnchor obj rest with
        | .error e => .error e
        | .ok (obj2, rest2) => skipAtAnchor searchAnchor objectsToSkip.toNat obj2 rest2
    match step with
    | .error e => .error e
    | .ok (objF, restF) =>
      let (nxt, restG) := takeNext restF
      .ok { searchIterator := restG, currentObject := some objF,
            nextObject := nxt,
            anchor := some ⟨searchAnchor, objectsToSkip⟩ }

/-- The embedding of `IntervalIterator.__init__`: without a page token
start a fresh iteration, otherwise decode the token into
`(searchAnchor, objectsToSkip)` and pick the iteration up there.  The
catch-all arm is unreachable: a successful parse with arity 2 always
yields a two-element list. -/
def intervalIteratorInit (source : List Obj) (req : Request) :
    Except PyError IterState :=
  match req.pageToken with
  | none => .ok (_initialiseIteration source req)
  | some tok =>
    match _parsePageToken tok 2 with
    | .error e => .error e
    | .ok [searchAnchor, objectsToSkip] =>
      _pickUpIteration source req searchAnchor objectsToSkip
    | .ok _ => .error .badPageToken

/-- The embedding of `IntervalIterator.next`: `StopIteration` (here
`none`) once the lookahead is empty; otherwise the continuation token is
computed from the buffered next object's start — a start beyond the anchor
moves the anchor and resets the distance, an equal start increments the
distance — and the pair `(currentObject, token)` is returned with the
buffers advanced.  An unset anchor compares below any start under
Python 2's `int > None` convention; that state is unreachable while a
current object exists. -/
def iterNext (st : IterState) : Option ((Obj × Option String) × IterState) :=
  match st.currentObject with
  | none => none
  | some cur =>
    let upd : Option String × Option AnchorState :=
      match st.nextObject with
      | none => (none, st.anchor)
      | some nxt =>
        match st.anchor with
        | none => (some (encodeToken nxt.start 0), some ⟨nxt.start, 0⟩)
        | some a =>
          if nxt.start > a.searchAnchor then
            (some (encodeToken nxt.start 0), some ⟨nxt.start, 0⟩)
          else
            (some (encodeToken a.searchAnchor (a.distanceFromAnchor + 1)),
             some ⟨a.searchAnchor, a.distanceFromAnchor + 1⟩)
    let (nxt2, rest2) := takeNext st.searchIterator
    some ((cur, upd.1),
      { searchIterator := rest2, currentObject := st.nextObject,
        nextObject := nxt2, anchor := upd.2 })

/-! ## The paging loop of `runSearchRequest` and the top-level paginator -/

/-- A bound on the number of results the iterator can still yield: the
buffered pair plus the remaining search results. -/
def IterState.size (st : IterState) : Nat :=
  st.searchIterator.length + st.currentObject.elim 0 (fun _ => 1) +
    st.nextObject.elim 0 (fun _ => 1)

/-- The page-filling loop of `runSearchRequest`,
`for obj, nextPageToken in generator: addValue(obj); if isFull(): break`,
with the builder's `isFull` modelled from the spec (§4.4) as "the
configured page size is reached" — the serialized-size budget of the
builder (which lives outside `src/`) is not modelled.  `nextPageToken`
always holds the token paired with the last object added, `None` before
any is.  The fuel argument makes the recursion structural;
`IterState.size st + 1` always suffices. -/
def drivePageGo : Nat → IterState → Nat → List Obj → Option String →
    List Obj × Option String
  | 0, _, _, acc, tok => (acc.reverse, tok)
  | fuel + 1, st, pageSize, acc, tok =>
    match iterNext st with
    | none => (acc.reverse, tok)
    | some ((obj, t), st') =>
      if acc.length + 1 ≥ pageSize then ((obj :: acc).reverse, t)
      else drivePageGo fuel st' pageSize (obj :: acc) t

/-- One page of at most `pageSize` objects together with the continuation
token `setNextPageToken` records. -/
def drivePage (st : IterState) (pageSize : Nat) : List Obj × Option String :=
  drivePageGo (st.size + 1) st pageSize [] none

/-- The backend configuration `runSearchRequest` reads:
`self._defaultPageSize` (100 unless reconfigured). -/
structure Backend where
  defaultPageSize : Int
deriving DecidableEq, Repr

/-- The request-lifecycle slice of `AbstractBackend.runSearchRequest` that
drives an interval search: default the page size if absent, reject a
non-positive page size with `BadPageSizeException` before the object
generator is built, then construct the interval iterator and fill one
page. -/
def runIntervalSearchRequest (b : Backend) (source : List Obj)
    (req : Request) : Except PyError (List Obj × Option String) :=
  let pageSize :=
    match req.pageSize with
    | none => b.defaultPageSize
    | some p => p
  if pageSize ≤ 0 then .error (.badPageSize pageSize)
  else
    match intervalIteratorInit source req with
    | .error e => .error e
    | .ok st => .ok (drivePage st pageSize.toNat)

/-- One interval page driven from a given continuation token: the iterator
is rebuilt from the token exactly as a fresh request carrying it would
build it, then one page is filled. -/
def runOnePage (source : List Obj) (req : Request) (tok : Option String)
    (pageSize : Nat) : Except PyError (List Obj × Option String) :=
  match intervalIteratorInit source { req with pageToken := tok } with
  | .error e => .error e
  | .ok st => .ok (drivePage st pageSize)

/-- Page-by-page driving: run one page, stop on a null continuation token,
otherwise resume from the issued token and concatenate.  The fuel bounds
the number of pages; one more than the total result count always
suffices for a positive page size. -/
def collectPages (source : List Obj) (req : Request) (pageSize : Nat) :
    Nat → Option String → Except PyError (List Obj)
  | 0, _ => .ok []
  | fuel + 1, tok =>
    match runOnePage source req tok pageSize with
    | .error e => .error e
    | .ok (objs, tok') =>
      match tok' with
      | none => .ok objs
      | some t =>
        match collectPages source req pageSize fuel (some t) with
        | .error e => .error e
        | .ok rest => .ok (objs ++ rest)

/-- The embedding of the `while currentIndex < len(idList)` loop of
`AbstractBackend._topLevelObjectGenerator`: emit the mapped object at each
successive index, pairing it with `str(currentIndex + 1)` while more
identifiers remain and with `None` at the last one.  The fuel argument
makes the recursion structural; `idList.length` iterations always
suffice. -/
def topLevelGenAux {α β : Type} (idMap : α → β) (idList : List α) :
    Nat → Nat → List (β × Option String)
  | 0, _ => []
  | fuel + 1, currentIndex =>
    match idList[currentIndex]? with
    | none => []
    | some objectId =>
      (idMap objectId,
        if currentIndex + 1 < idList.length then some (natStr (currentIndex + 1))
        else none)
        :: topLevelGenAux idMap idList fuel (currentIndex + 1)

/-- The embedding of `AbstractBackend._topLevelObjectGenerator` from its
start index (0 without a token, the token's single decoded value with
one).  The generator's own tokens are the successor indices, so resumed
indices are non-negative and the index is carried as a `Nat`. -/
def _topLevelObjectGenerator {α β : Type} (idMap : α → β) (idList : List α)
    (currentIndex : Nat) : List (β × Option String) :=
  topLevelGenAux idMap idList idList.length currentIndex

/-! ## The canonical iteration state

For a fixed request window the full logical result stream is
`search source request.start request.end`.  The following functions give
the iterator state after `k` objects of that stream have been emitted;
the correctness proofs show initialisation, stepping and token-resumption
all land on these states. -/

/-- Sorted by non-decreasing start: the ordering contract of the source
(§6). -/
abbrev SortedStarts (l : List Obj) : Prop :=
  List.Pairwise (fun x y => x.start ≤ y.start) l

/-- Every stored object is a genuine interval, its end strictly beyond its
start — the shape of the alignment and variant records the repository's
sources produce. -/
abbrev ValidIntervals (l : List Obj) : Prop :=
  ∀ o ∈ l, o.start < o.stop

/-- The start coordinate of the stream's `k`-th object (0 past the end). -/
def startAt (L : List Obj) (k : Nat) : Int :=
  match L[k]? with
  | some o => o.start
  | none => 0

/-- The search anchor while the `k`-th object is current: the requested
start, or the object's own start once the stream has moved beyond it. -/
def anchorAt (L : List Obj) (rs : Int) (k : Nat) : Int :=
  max rs (startAt L k)

/-- The distance from the anchor while the `k`-th object is current: how
many earlier stream members share its anchor. -/
def distAt (L : List Obj) (rs : Int) (k : Nat) : Nat :=
  (L.take k).countP (fun o => decide (max rs o.start = anchorAt L rs k))

/-- The continuation token the iterator pairs with the object before
position `k`: the anchor and distance of position `k`, or `None` when the
stream is exhausted there. -/
def tokenAt (L : List Obj) (rs : Int) (k : Nat) : Option String :=
  if k < L.length then some (encodeToken (anchorAt L rs k) (distAt L rs k))
  else none

/-- The iterator state in which `k` stream objects have been consumed and
the `k`-th is current.  Past the final emission the anchor keeps the value
it had at the last object; on an empty stream it was never set. -/
def stateAt (L : List Obj) (rs : Int) (k : Nat) : IterState :=
  { searchIterator := L.drop (k + 2),
    currentObject := L[k]?,
    nextObject := L[k + 1]?,
    anchor :=
      if L.isEmpty then none
      else
        some ⟨anchorAt L rs (min k (L.length - 1)),
              (distAt L rs (min k (L.length - 1)) : Int)⟩ }

/-! ## Concrete scenarios -/

/-- The tie-handling scenario of §8: four objects whose starts are
`[5, 5, 5, 7]`. -/
def tieSource : List Obj := [⟨5, 8, 0⟩, ⟨5, 8, 1⟩, ⟨5, 8, 2⟩, ⟨7, 10, 3⟩]

/-- A window covering the whole tie-handling source, pageSize 2. -/
def tieRequest : Request := ⟨0, 100, none, some 2⟩

/-- The end-to-end scenario of §8: five objects whose starts are
`[10, 10, 20, 20, 20]`. -/
def endToEndSource : List Obj :=
  [⟨10, 15, 0⟩, ⟨10, 15, 1⟩, ⟨20, 25, 2⟩, ⟨20, 25, 3⟩, ⟨20, 25, 4⟩]

/-- A window covering the whole end-to-end source, pageSize 3. -/
def endToEndRequest : Request := ⟨0, 100, none, some 3⟩

/-- Two objects in distinct tie-groups, for the misaligned-skip
scenario. -/
def assertSource : List Obj := [⟨5, 8, 0⟩, ⟨7, 10, 1⟩]

/-- A window covering `assertSource` with no token of its own. -/
def assertRequest : Request := ⟨0, 100, none, none⟩

/-- A request whose window starts exactly at the first tie-group of the
end-to-end source. -/
def eqStartRequest : Request := ⟨10, 100, none, none⟩

/-! ## Loop-level lemmas -/

/-- Python's `next(it, None)` on a list iterator is head and tail. -/
lemma takeNext_eq (l : List Obj) : takeNext l = (l.head?, l.tail) := by
  cases l <;> simp [takeNext]

/-- The unconditional skip loop lands `n` positions further on, when the
iterator holds that many results. -/
lemma skipN_ok (n : Nat) (obj : Obj) (rest : List Obj)
    (h : n + 1 ≤ (obj :: rest).length) :
    skipN n obj rest =
      .ok ((obj :: rest).get ⟨n, h⟩, (obj :: rest).drop (n + 1)) := by
  induction n generalizing obj rest with
  | zero => simp [skipN]
  | succ n ih =>
    cases rest with
    | nil => simp at h
    | cons x xs =>
      simpa [skipN] using ih x xs (by simp only [List.length_cons] at h ⊢; omega)

/-- The discard loop strips exactly the leading results that start below
the anchor, raising `StopIteration` if nothing remains. -/
lemma discardBelow_spec (a : Int) (obj : Obj) (rest : List Obj) :
    discardBelow a obj rest =
      match (obj :: rest).dropWhile (fun o => decide (o.start < a)) with
      | [] => .error .stopIteration
      | x :: xs => .ok (x, xs) := by
  induction rest generalizing obj with
  | nil =>
    by_cases h : obj.start < a <;> simp [discardBelow, List.dropWhile, h]
  | cons y ys ih =>
    by_cases h : obj.start < a
    · rw [discardBelow]
      rw [if_pos h]
      rw [ih y]
      simp [List.dropWhile, h]
    · simp [discardBelow, List.dropWhile, h]

/-- The asserted skip loop lands `n` positions further on when the first
`n` results all start at the anchor and enough remain. -/
lemma skipAtAnchor_ok (a : Int) (n : Nat) (obj : Obj) (rest : List Obj)
    (hlen : n + 1 ≤ (obj :: rest).length)
    (hall : ∀ (i : Nat) (_ : i < n) (hil : i < (obj :: rest).length),
      ((obj :: rest).get ⟨i, hil⟩).start = a) :
    skipAtAnchor a n obj rest =
      .ok ((obj :: rest).get ⟨n, hlen⟩, (obj :: rest).drop (n + 1)) := by
  induction n generalizing obj rest with
  | zero => simp [skipAtAnchor]
  | succ n ih =>
    cases rest with
    | nil => simp at hlen
    | cons x xs =>
      have h0 : obj.start = a := hall 0 (Nat.succ_pos n) (by simp)
      simp only [skipAtAnchor, if_pos h0]
      have := ih x xs (by simp only [List.length_cons] at hlen ⊢; omega)
        (fun i hi hil => by
          have := hall (i + 1) (Nat.succ_lt_succ hi)
            (by simpa using Nat.succ_lt_succ hil)
          simpa using this)
      simpa using this

/-- A result that starts off-anchor within the asserted skip range fails
the `assert` — an `AssertionError`, not a `BadPageTokenException`. -/
lemma skipAtAnchor_assert_fail (a : Int) (n : Nat) (obj : Obj)
    (rest : List Obj) (m : Nat) (hm : m < n)
    (hml : m < (obj :: rest).length)
    (hbad : ((obj :: rest).get ⟨m, hml⟩).start ≠ a)
    (hpre : ∀ (i : Nat) (_ : i < m) (hil : i < (obj :: rest).length),
      ((obj :: rest).get ⟨i, hil⟩).start = a) :
    skipAtAnchor a n obj rest = .error .assertionError := by
  induction n generalizing obj rest m with
  | zero => omega
  | succ n ih =>
    cases m with
    | zero =>
      simp only [skipAtAnchor]
      rw [if_neg (by simpa using hbad)]
    | succ m =>
      have h0 : obj.start = a := hpre 0 (Nat.succ_pos m) (by simp)
      simp only [skipAtAnchor]
      rw [if_pos h0]
      cases rest with
      | nil => simp at hml
      | cons x xs =>
        exact ih x xs m (by omega)
          (by simpa using Nat.lt_of_succ_lt_succ hml)
          (by simpa using hbad)
          (fun i hi hil => by
            have := hpre (i + 1) (Nat.succ_lt_succ hi)
              (by simpa using Nat.succ_lt_succ hil)
            simpa using this)

/-- On a sequence sorted by start, the discard loop's `dropWhile` removes
every result starting below the anchor, not only a prefix. -/
lemma sorted_dropWhile_start_eq_filter (l : List Obj) (a : Int)
    (h : List.Pairwise (fun x y => x.start ≤ y.start) l) :
    l.dropWhile (fun o => decide (o.start < a)) =
      l.filter (fun o => decide (a ≤ o.start)) := by
  induction l with
  | nil => simp
  | cons x xs ih =>
    rcases List.pairwise_cons.mp h with ⟨hx, hxs⟩
    by_cases hxa : x.start < a
    · simp [List.dropWhile_cons, List.filter_cons, hxa, not_le.mpr hxa, ih hxs]
    · have hall : List.filter (fun o => decide (a ≤ o.start)) xs = xs :=
        List.filter_eq_self.mpr (fun y hy => by
          have := hx y hy
          simp only [decide_eq_true_eq]
          omega)
      simp [List.dropWhile_cons, List.filter_cons, hxa, not_lt.mp hxa, hall]

/-- The two success branches of `_pickUpIteration`, as one lemma each:
anchor still at the request start — skip unconditionally. -/
lemma pickUp_eq_start (source : List Obj) (req : Request) (anchor : Int)
    (skip : Nat) (heq : anchor = req.start)
    (hlen : skip + 1 ≤ (search source anchor req.stop).length) :
    _pickUpIteration source req anchor (skip : Int) =
      .ok { searchIterator := (search source anchor req.stop).drop (skip + 2),
            currentObject := (search source anchor req.stop)[skip]?,
            nextObject := (search source anchor req.stop)[skip + 1]?,
            anchor := some ⟨anchor, (skip : Int)⟩ } := by
  cases hM : search source anchor req.stop with
  | nil => rw [hM] at hlen; simp at hlen
  | cons obj rest =>
    rw [hM] at hlen
    unfold _pickUpIteration
    rw [hM]
    dsimp only
    rw [if_pos heq]
    have htn : ((skip : Int)).toNat = skip := rfl
    rw [htn, skipN_ok skip obj rest hlen]
    dsimp only
    rw [takeNext_eq]
    rw [List.head?_drop, List.tail_drop]
    simp [List.getElem?_eq_getElem (by omega : skip < (obj :: rest).length),
      List.get_eq_getElem]

/-- The anchor-beyond-request-start branch of `_pickUpIteration`: discard
the re-surfaced results below the anchor, then skip within the anchor's
tie-group under the boundary assertion. -/
lemma pickUp_ne_start (source : List Obj) (req : Request) (anchor : Int)
    (skip : Nat) (hne : anchor ≠ req.start) (suf : List Obj)
    (hsuf : suf = (search source anchor req.stop).dropWhile
      (fun o => decide (o.start < anchor)))
    (hall : ∀ (i : Nat) (_ : i < skip) (hil : i < suf.length),
      (suf.get ⟨i, hil⟩).start = anchor)
    (hlen : skip + 1 ≤ suf.length) :
    _pickUpIteration source req anchor (skip : Int) =
      .ok { searchIterator := suf.drop (skip + 2),
            currentObject := suf[skip]?,
            nextObject := suf[skip + 1]?,
            anchor := some ⟨anchor, (skip : Int)⟩ } := by
  have hsufne : suf ≠ [] := by
    intro h; rw [h] at hlen; simp at hlen
  cases hM : search source anchor req.stop with
  | nil =>
    rw [hM] at hsuf; simp at hsuf; exact absurd hsuf hsufne
  | cons obj rest =>
    unfold _pickUpIteration
    rw [hM]
    dsimp only
    rw [if_neg hne]
    rw [discardBelow_spec]
    rw [hM] at hsuf
    rw [← hsuf]
    cases hS : suf with
    | nil => exact absurd hS hsufne
    | cons x xs =>
      have htn : ((skip : Int)).toNat = skip := rfl
      rw [htn]
      rw [hS] at hlen hall
      dsimp only
      rw [skipAtAnchor_ok anchor skip x xs hlen hall]
      dsimp only
      rw [takeNext_eq, List.head?_drop, List.tail_drop]
      have hsl : skip < (x :: xs).length := by omega
      simp [List.getElem?_eq_getElem hsl, List.get_eq_getElem]

/-! ## Codec round-trip lemmas -/

lemma digitChar_prop (d : Nat) (hd : d < 10) :
    (digitChar d).isDigit = true ∧ (digitChar d).isWhitespace = false ∧
    digitChar d ≠ ':' ∧ digitChar d ≠ '+' ∧ digitChar d ≠ '-' ∧
    (digitChar d).toNat - 48 = d := by
  interval_cases d <;> exact ⟨by decide, by decide, by decide, by decide, by decide, by decide⟩

lemma natDigitsRevAux_mem (fuel n : Nat) (hf : n < fuel) :
    ∀ c ∈ natDigitsRevAux fuel n, ∃ d, d < 10 ∧ c = digitChar d := by
  induction fuel generalizing n with
  | zero => omega
  | succ fuel ih =>
    by_cases h10 : n < 10
    · simp only [natDigitsRevAux, if_pos h10]
      intro c hc
      rcases List.mem_singleton.mp hc with rfl
      exact ⟨n, h10, rfl⟩
    · simp only [natDigitsRevAux, if_neg h10]
      intro c hc
      rcases List.mem_cons.mp hc with rfl | hc
      · exact ⟨n % 10, by omega, rfl⟩
      · exact ih (n / 10) (by omega) c hc

lemma natDigitsRevAux_ne_nil (fuel n : Nat) (hf : n < fuel) :
    natDigitsRevAux fuel n ≠ [] := by
  cases fuel with
  | zero => omega
  | succ fuel =>
    by_cases h10 : n < 10 <;> simp [natDigitsRevAux, h10]

lemma decDigitsVal_append (l1 l2 : List Char) (acc : Nat) :
    decDigitsVal (l1 ++ l2) acc =
      match decDigitsVal l1 acc with
      | some v => decDigitsVal l2 v
      | none => none := by
  induction l1 generalizing acc with
  | nil => simp [decDigitsVal]
  | cons c cs ih =>
    by_cases hc : c.isDigit
    · simp only [List.cons_append, decDigitsVal, if_pos hc]
      exact ih _
    · simp only [List.cons_append, decDigitsVal, if_neg hc]

lemma decDigitsVal_natDigitsRevAux (fuel n acc : Nat) (hf : n < fuel) :
    decDigitsVal ((natDigitsRevAux fuel n).reverse) acc =
      some (acc * 10 ^ (natDigitsRevAux fuel n).length + n) := by
  induction fuel generalizing n acc with
  | zero => omega
  | succ fuel ih =>
    by_cases h10 : n < 10
    · simp only [natDigitsRevAux, if_pos h10, List.reverse_singleton,
        List.length_singleton]
      obtain ⟨hdig, -, -, -, -, hval⟩ := digitChar_prop n h10
      simp [decDigitsVal, hdig, hval]
      ring
    · simp only [natDigitsRevAux, if_neg h10, List.reverse_cons, List.length_cons]
      rw [decDigitsVal_append]
      rw [ih (n / 10) acc (by omega)]
      obtain ⟨hdig, -, -, -, -, hval⟩ := digitChar_prop (n % 10) (by omega)
      simp [decDigitsVal, hdig, hval]
      rw [pow_succ]
      have : 10 * (n / 10) + n % 10 = n := Nat.div_add_mod n 10
      ring_nf
      omega

lemma natRepr10_val (n : Nat) :
    decDigitsVal (natRepr10 n) 0 = some n := by
  unfold natRepr10
  rw [decDigitsVal_natDigitsRevAux (n + 1) n 0 (by omega)]
  simp

lemma dropWhile_eq_self_of_not (p : Char → Bool) (l : List Char)
    (h : ∀ c ∈ l, p c = false) : l.dropWhile p = l := by
  cases l with
  | nil => rfl
  | cons c cs => simp [List.dropWhile_cons, h c (List.mem_cons_self c cs)]

lemma trimWs_eq_self (l : List Char)
    (h : ∀ c ∈ l, c.isWhitespace = false) : trimWs l = l := by
  unfold trimWs
  rw [dropWhile_eq_self_of_not _ _ h]
  rw [dropWhile_eq_self_of_not _ _ (fun c hc => h c (List.mem_reverse.mp hc))]
  exact List.reverse_reverse l

lemma natRepr10_chars (n : Nat) :
    ∀ c ∈ natRepr10 n, ∃ d, d < 10 ∧ c = digitChar d := by
  intro c hc
  exact natDigitsRevAux_mem (n + 1) n (by omega) c (List.mem_reverse.mp hc)

lemma natRepr10_ne_nil (n : Nat) : natRepr10 n ≠ [] := by
  unfold natRepr10
  simpa using natDigitsRevAux_ne_nil (n + 1) n (by omega)

lemma intRepr_no_colon (i : Int) : ∀ c ∈ intRepr i, c ≠ ':' := by
  intro c hc
  unfold intRepr at hc
  by_cases hneg : i < 0
  · rw [if_pos hneg] at hc
    rcases List.mem_cons.mp hc with rfl | hc
    · decide
    · obtain ⟨d, hd, rfl⟩ := natRepr10_chars _ c hc
      exact (digitChar_prop d hd).2.2.1
  · rw [if_neg hneg] at hc
    obtain ⟨d, hd, rfl⟩ := natRepr10_chars _ c hc
    exact (digitChar_prop d hd).2.2.1

lemma pyInt_natRepr10 (n : Nat) : pyInt (natRepr10 n) = some (n : Int) := by
  unfold pyInt
  have htrim : trimWs (natRepr10 n) = natRepr10 n :=
    trimWs_eq_self _ (fun c hc => by
      obtain ⟨d, hd, rfl⟩ := natRepr10_chars n c hc
      exact (digitChar_prop d hd).2.1)
  rw [htrim]
  cases hn : natRepr10 n with
  | nil => exact absurd hn (natRepr10_ne_nil n)
  | cons c ds =>
    have hcd : ∃ d, d < 10 ∧ c = digitChar d :=
      natRepr10_chars n c (by rw [hn]; exact List.mem_cons_self c ds)
    obtain ⟨d, hd, rfl⟩ := hcd
    dsimp only
    rw [if_neg (digitChar_prop d hd).2.2.2.1, if_neg (digitChar_prop d hd).2.2.2.2.1]
    rw [← hn, natRepr10_val n]
    rfl

lemma pyInt_intRepr (i : Int) : pyInt (intRepr i) = some i := by
  by_cases hneg : i < 0
  · unfold intRepr
    rw [if_pos hneg]
    unfold pyInt
    have htrim : trimWs ('-' :: natRepr10 (-i).toNat) = '-' :: natRepr10 (-i).toNat :=
      trimWs_eq_self _ (fun c hc => by
        rcases List.mem_cons.mp hc with rfl | hc
        · decide
        · obtain ⟨d, hd, rfl⟩ := natRepr10_chars _ c hc
          exact (digitChar_prop d hd).2.1)
    rw [htrim]
    dsimp only
    rw [if_neg (by decide), if_pos rfl]
    rw [if_neg (natRepr10_ne_nil _)]
    rw [natRepr10_val]
    have hval : -((((-i).toNat : Nat)) : Int) = i := by omega
    simp
    omega
  · unfold intRepr
    rw [if_neg hneg]
    rw [pyInt_natRepr10]
    congr 1
    omega

lemma splitColon_no_colon (l : List Char) (h : ∀ c ∈ l, c ≠ ':') :
    splitColon l = [l] := by
  induction l with
  | nil => rfl
  | cons c cs ih =>
    rw [splitColon.eq_def]
    dsimp only
    rw [if_neg (h c (List.mem_cons_self c cs))]
    rw [ih (fun x hx => h x (List.mem_cons_of_mem c hx))]

lemma splitColon_append (l1 l2 : List Char) (h : ∀ c ∈ l1, c ≠ ':') :
    splitColon (l1 ++ ':' :: l2) = l1 :: splitColon l2 := by
  induction l1 with
  | nil => simp [splitColon]
  | cons c cs ih =>
    rw [List.cons_append, splitColon.eq_def]
    dsimp only
    rw [if_neg (h c (List.mem_cons_self c cs))]
    rw [ih (fun x hx => h x (List.mem_cons_of_mem c hx))]

lemma parse_encodeToken (a d : Int) :
    _parsePageToken (encodeToken a d) 2 = .ok [a, d] := by
  unfold _parsePageToken encodeToken
  have hdata : (String.mk (intRepr a ++ ':' :: intRepr d)).data =
      intRepr a ++ ':' :: intRepr d := rfl
  rw [hdata]
  rw [splitColon_append _ _ (intRepr_no_colon a)]
  rw [splitColon_no_colon _ (intRepr_no_colon d)]
  rw [if_neg (by simp)]
  simp only [mapPyInt, pyInt_intRepr]

/-! ## The canonical-state invariant -/

lemma search_sorted (source : List Obj) (a b : Int) (h : SortedStarts source) :
    SortedStarts (search source a b) :=
  List.Pairwise.sublist (List.filter_sublist source) h

lemma search_valid (source : List Obj) (a b : Int) (h : ValidIntervals source) :
    ValidIntervals (search source a b) :=
  fun o ho => h o (List.mem_of_mem_filter ho)

lemma startAt_eq (L : List Obj) (k : Nat) (hk : k < L.length) :
    startAt L k = (L.get ⟨k, hk⟩).start := by
  unfold startAt
  rw [List.getElem?_eq_getElem hk]
  rfl

lemma sorted_start_mono (L : List Obj) (hs : SortedStarts L) (i j : Nat)
    (hij : i ≤ j) (hj : j < L.length) :
    startAt L i ≤ startAt L j := by
  rcases Nat.lt_or_ge i j with hlt | hge
  · rw [startAt_eq L i (by omega), startAt_eq L j hj]
    have := List.pairwise_iff_getElem.mp hs i j (by omega) hj hlt
    simpa using this
  · have : i = j := by omega
    subst this
    exact le_refl _

lemma mem_take_start_le (L : List Obj) (hs : SortedStarts L) (k : Nat)
    (hk : k < L.length) :
    ∀ o ∈ L.take (k + 1), o.start ≤ startAt L k := by
  intro o ho
  have hsplit : L.take (k + 1) = L.take k ++ [L.get ⟨k, hk⟩] := by
    rw [List.take_succ, List.getElem?_eq_getElem hk]
    rfl
  rw [hsplit] at ho
  rw [startAt_eq L k hk]
  rcases List.mem_append.mp ho with ho | ho
  · have hsp : (L.take k ++ [L.get ⟨k, hk⟩]).Pairwise
        (fun x y => x.start ≤ y.start) := by
      rw [← hsplit]
      exact List.Pairwise.sublist (List.take_sublist (k + 1) L) hs
    exact (List.pairwise_append.mp hsp).2.2 o ho _ (List.mem_singleton_self _)
  · rw [List.mem_singleton.mp ho]

lemma anchorAt_rs_le (L : List Obj) (rs : Int) (k : Nat) :
    rs ≤ anchorAt L rs k := le_max_left _ _

/-- The in-page anchor recurrence when the next object starts beyond the
current anchor: a new tie-group begins. -/
lemma anchorAt_succ_gt (L : List Obj) (rs : Int) (hs : SortedStarts L)
    (k : Nat) (hk1 : k + 1 < L.length)
    (h : startAt L (k + 1) > anchorAt L rs k) :
    anchorAt L rs (k + 1) = startAt L (k + 1) ∧ distAt L rs (k + 1) = 0 := by
  have hanew : anchorAt L rs (k + 1) = startAt L (k + 1) := by
    unfold anchorAt at h ⊢
    omega
  refine ⟨hanew, ?_⟩
  unfold distAt
  rw [hanew]
  refine List.countP_eq_zero.mpr ?_
  intro o ho
  have hle : o.start ≤ startAt L k :=
    mem_take_start_le L hs k (by omega) o ho
  have : max rs o.start ≤ anchorAt L rs k := by
    unfold anchorAt
    omega
  simp only [decide_eq_true_eq]
  omega

/-- The in-page anchor recurrence when the next object still starts at the
anchor: the distance grows by one. -/
lemma anchorAt_succ_le (L : List Obj) (rs : Int) (hs : SortedStarts L)
    (k : Nat) (hk1 : k + 1 < L.length)
    (h : ¬ startAt L (k + 1) > anchorAt L rs k) :
    anchorAt L rs (k + 1) = anchorAt L rs k ∧
    distAt L rs (k + 1) = distAt L rs k + 1 := by
  have hmono : startAt L k ≤ startAt L (k + 1) :=
    sorted_start_mono L hs k (k + 1) (by omega) hk1
  have hanew : anchorAt L rs (k + 1) = anchorAt L rs k := by
    unfold anchorAt at h ⊢
    omega
  refine ⟨hanew, ?_⟩
  unfold distAt
  rw [hanew]
  have hsplit : L.take (k + 1) = L.take k ++ [L.get ⟨k, by omega⟩] := by
    rw [List.take_succ, List.getElem?_eq_getElem (by omega : k < L.length)]
    rfl
  rw [hsplit, List.countP_append]
  have hone : List.countP
      (fun o => decide (max rs o.start = anchorAt L rs k)) [L.get ⟨k, by omega⟩] = 1 := by
    have heq : max rs (L.get ⟨k, by omega⟩).start = anchorAt L rs k := by
      unfold anchorAt
      rw [startAt_eq L k (by omega)]
    rw [List.get_eq_getElem] at heq
    simp [List.countP_cons, heq]
  omega

/-- Stepping the iterator from the canonical state at `k` emits the `k`-th
stream object paired with the token of position `k + 1` and lands on the
canonical state at `k + 1`. -/
lemma iterNext_stateAt (L : List Obj) (rs : Int) (hs : SortedStarts L)
    (k : Nat) (hk : k < L.length) :
    iterNext (stateAt L rs k) =
      some ((L.get ⟨k, hk⟩, tokenAt L rs (k + 1)), stateAt L rs (k + 1)) := by
  have hne : L.isEmpty = false := by
    cases L with
    | nil => simp at hk
    | cons x xs => rfl
  have hcur : L[k]? = some (L.get ⟨k, hk⟩) := by
    rw [List.getElem?_eq_getElem hk]; rfl
  have hmin : min k (L.length - 1) = k := by omega
  by_cases hk1 : k + 1 < L.length
  · have hnxt : L[k + 1]? = some (L.get ⟨k + 1, hk1⟩) := by
      rw [List.getElem?_eq_getElem hk1]; rfl
    have hmin1 : min (k + 1) (L.length - 1) = k + 1 := by omega
    have hstart : (L.get ⟨k + 1, hk1⟩).start = startAt L (k + 1) :=
      (startAt_eq L (k + 1) hk1).symm
    unfold iterNext stateAt
    rw [hcur, hnxt]
    simp only [hne, Bool.false_eq_true, if_false, hmin, hmin1]
    rw [takeNext_eq, List.head?_drop, List.tail_drop]
    unfold tokenAt
    rw [if_pos hk1, hstart]
    by_cases hgt : startAt L (k + 1) > anchorAt L rs k
    · obtain ⟨ha, hd⟩ := anchorAt_succ_gt L rs hs k hk1 hgt
      rw [if_pos hgt, ha, hd]
      constructor
    · obtain ⟨ha, hd⟩ := anchorAt_succ_le L rs hs k hk1 hgt
      have hcast : ((distAt L rs k : Int) + 1) =
          ((distAt L rs k + 1 : Nat) : Int) := by push_cast; ring
      rw [if_neg hgt, ha, hd, hcast]
  · have hnxt : L[k + 1]? = none := List.getElem?_eq_none (by omega)
    have hmin1 : min (k + 1) (L.length - 1) = k := by omega
    unfold iterNext stateAt
    rw [hcur, hnxt]
    simp only [hne, Bool.false_eq_true, if_false, hmin, hmin1]
    rw [takeNext_eq, List.head?_drop, List.tail_drop]
    unfold tokenAt
    rw [if_neg (by omega)]

/-- Fresh initialisation lands on the canonical state at position 0. -/
lemma initialise_eq_stateAt (source : List Obj) (req : Request) :
    _initialiseIteration source req =
      stateAt (search source req.start req.stop) req.start 0 := by
  unfold _initialiseIteration stateAt
  cases hL : search source req.start req.stop with
  | nil => rfl
  | cons cur rest =>
    dsimp only
    rw [takeNext_eq]
    have hanch : (if cur.start > req.start then cur.start else req.start) =
        anchorAt (cur :: rest) req.start 0 := by
      unfold anchorAt startAt
      simp only [List.getElem?_cons_zero]
      omega
    have hdist : distAt (cur :: rest) req.start 0 = 0 := by
      unfold distAt
      simp
    simp only [List.isEmpty_cons, hanch, hdist]
    simp [List.drop_one, hdist]
    cases rest <;> simp

/-- The canonical state at `k` can yield exactly the remaining
`L.length - k` objects. -/
lemma stateAt_size (L : List Obj) (rs : Int) (k : Nat) (hk : k ≤ L.length) :
    (stateAt L rs k).size = L.length - k := by
  unfold stateAt IterState.size
  simp only [List.length_drop]
  by_cases h1 : k < L.length
  · rw [List.getElem?_eq_getElem h1]
    by_cases h2 : k + 1 < L.length
    · rw [List.getElem?_eq_getElem h2]
      simp only [Option.elim_some]
      omega
    · rw [List.getElem?_eq_none (by omega)]
      simp only [Option.elim_some, Option.elim_none]
      omega
  · rw [List.getElem?_eq_none (by omega), List.getElem?_eq_none (by omega)]
    simp only [Option.elim_none]
    omega

/-- Driving one page from the canonical state at `k`: the loop takes the
next `p - acc.length` stream objects and finishes with the token of the
position one past the last object taken (`None` at or past the end). -/
lemma drivePageGo_stateAt (L : List Obj) (rs : Int) (hs : SortedStarts L)
    (p : Nat) :
    ∀ (fuel k : Nat) (acc : List Obj) (tok : Option String),
    k ≤ L.length → L.length - k < fuel → acc.length < p →
    (k = L.length → tok = none) →
    drivePageGo fuel (stateAt L rs k) p acc tok =
      (acc.reverse ++ (L.drop k).take (p - acc.length),
       tokenAt L rs (min (k + (p - acc.length)) L.length)) := by
  intro fuel
  induction fuel with
  | zero => intro k acc tok hk hfuel hacc htok; omega
  | succ fuel ih =>
    intro k acc tok hk hfuel hacc htok
    by_cases hkl : k < L.length
    · rw [drivePageGo]
      rw [iterNext_stateAt L rs hs k hkl]
      dsimp only
      by_cases hfull : acc.length + 1 ≥ p
      · rw [if_pos hfull]
        have hm : p - acc.length = 1 := by omega
        rw [hm]
        have hdropk : L.drop k = L.get ⟨k, hkl⟩ :: L.drop (k + 1) := by
          rw [List.drop_eq_getElem_cons hkl]
          rfl
        rw [hdropk]
        simp only [List.take_succ_cons, List.take_zero, List.reverse_cons]
        have hminr : min (k + 1) L.length = k + 1 := by omega
        rw [hminr]
      · rw [if_neg hfull]
        rw [ih (k + 1) (L.get ⟨k, hkl⟩ :: acc) (tokenAt L rs (k + 1))
          (by omega) (by omega) (by simp only [List.length_cons]; omega)
          (fun h => by unfold tokenAt; rw [if_neg (by omega)])]
        have hdropk : L.drop k = L.get ⟨k, hkl⟩ :: L.drop (k + 1) := by
          rw [List.drop_eq_getElem_cons hkl]
          rfl
        rw [hdropk]
        have hm : p - acc.length = (p - (acc.length + 1)) + 1 := by omega
        rw [hm]
        simp only [List.take_succ_cons, List.reverse_cons, List.length_cons]
        rw [List.append_assoc]
        have hidx : k + 1 + (p - (acc.length + 1)) = k + (p - (acc.length + 1) + 1) := by
          omega
        rw [hidx]
        constructor
    · have hkeq : k = L.length := by omega
      have hcur : L[k]? = none := List.getElem?_eq_none (by omega)
      rw [drivePageGo]
      have : iterNext (stateAt L rs k) = none := by
        unfold iterNext stateAt
        rw [hcur]
      rw [this]
      rw [htok hkeq]
      have hdrop : L.drop k = [] := List.drop_eq_nil_of_le (by omega)
      rw [hdrop]
      unfold tokenAt
      rw [if_neg (by omega)]
      simp

/-- One page from the canonical state at `k`. -/
lemma drivePage_stateAt (L : List Obj) (rs : Int) (hs : SortedStarts L)
    (p k : Nat) (hk : k ≤ L.length) (hp : 1 ≤ p) :
    drivePage (stateAt L rs k) p =
      ((L.drop k).take p, tokenAt L rs (min (k + p) L.length)) := by
  unfold drivePage
  rw [stateAt_size L rs k hk]
  rw [drivePageGo_stateAt L rs hs p (L.length - k + 1) k [] none hk (by omega)
    (by simpa using hp) (fun _ => rfl)]
  simp

/-! ## Resumption lemmas -/

lemma mem_take_of_le {m n : Nat} (hmn : m ≤ n) (l : List Obj) (o : Obj)
    (ho : o ∈ l.take m) : o ∈ l.take n := by
  have : l.take m = (l.take n).take m := by
    rw [List.take_take, Nat.min_eq_left hmn]
  rw [this] at ho
  exact List.take_subset m (l.take n) ho

lemma pickUp_req_token_irrel (source : List Obj) (req : Request)
    (t : Option String) (a d : Int) :
    _pickUpIteration source { req with pageToken := t } a d =
      _pickUpIteration source req a d := rfl

/-- Rebuilding the iterator from the token the canonical state at `j`
would be issued under lands exactly on that canonical state: replay plus
skip re-derives the suspended position, with no omission and no
duplication. -/
lemma resume_token (source : List Obj) (req : Request)
    (hsort : SortedStarts source) (hvalid : ValidIntervals source)
    (j : Nat) (hj : j < (search source req.start req.stop).length) :
    intervalIteratorInit source
      { req with pageToken := some (encodeToken
          (anchorAt (search source req.start req.stop) req.start j)
          ((distAt (search source req.start req.stop) req.start j : Nat) : Int)) } =
      .ok (stateAt (search source req.start req.stop) req.start j) := by
  set L := search source req.start req.stop with hL
  set rs := req.start with hrs
  set a := anchorAt L rs j with ha
  set d := distAt L rs j with hd
  have hLs : SortedStarts L := search_sorted source rs req.stop hsort
  have hLv : ValidIntervals L := search_valid source rs req.stop hvalid
  have hLne : L.isEmpty = false := by
    cases hc : L with
    | nil => rw [hc] at hj; simp at hj
    | cons x xs => rfl
  have hmin : min j (L.length - 1) = j := by omega
  have hstate : stateAt L rs j =
      { searchIterator := L.drop (j + 2), currentObject := L[j]?,
        nextObject := L[j + 1]?, anchor := some ⟨a, (d : Int)⟩ } := by
    unfold stateAt
    rw [hLne]
    simp only [Bool.false_eq_true, if_false, hmin]
  unfold intervalIteratorInit
  dsimp only
  rw [parse_encodeToken]
  dsimp only
  rw [pickUp_req_token_irrel]
  rw [hstate]
  by_cases hcase : startAt L j ≤ rs
  · -- the anchor is still the request start
    have haeq : a = rs := by
      rw [ha]; unfold anchorAt; omega
    have hdeq : d = j := by
      rw [hd]; unfold distAt
      rw [← ha, haeq]
      have hall : ∀ o ∈ L.take j, (fun o => decide (max rs o.start = rs)) o = true := by
        intro o ho
        have h1 : o.start ≤ startAt L j := by
          refine mem_take_start_le L hLs j hj o ?_
          exact mem_take_of_le (by omega) L o ho
        simp only [decide_eq_true_eq]
        omega
      rw [List.countP_eq_length.mpr hall]
      rw [List.length_take]
      omega
    rw [haeq, hdeq]
    have := pickUp_eq_start source req rs j rfl (by rw [← hL]; omega)
    rw [← hL] at this
    rw [this]
  · -- the anchor has moved past the request start
    push_neg at hcase
    have haeq : a = startAt L j := by
      rw [ha]; unfold anchorAt; omega
    have hane : a ≠ rs := by omega
    have hagt : rs < a := by omega
    have hMdrop : (search source a req.stop).dropWhile
        (fun o => decide (o.start < a)) =
        L.dropWhile (fun o => decide (o.start < a)) := by
      rw [sorted_dropWhile_start_eq_filter _ a
        (search_sorted source a req.stop hsort)]
      rw [sorted_dropWhile_start_eq_filter _ a hLs]
      rw [hL]
      unfold search
      rw [List.filter_filter, List.filter_filter]
      refine List.filter_congr ?_
      intro o ho
      have hv : o.start < o.stop := hvalid o ho
      by_cases hle : a ≤ o.start
      · have h1 : a < o.stop := by omega
        have h2 : rs < o.stop := by omega
        simp [hle, h1, h2]
      · simp [hle]
    -- structure of L around the anchor's tie-group
    set pre := L.takeWhile (fun o => decide (o.start < a)) with hpre
    set suf := L.dropWhile (fun o => decide (o.start < a)) with hsufdef
    have hsplit : pre ++ suf = L :=
      List.takeWhile_append_dropWhile (fun o => decide (o.start < a)) L
    have hsuffilter : suf = L.filter (fun o => decide (a ≤ o.start)) :=
      sorted_dropWhile_start_eq_filter L a hLs
    have hsufstart : ∀ o ∈ suf, a ≤ o.start := by
      intro o ho
      rw [hsuffilter] at ho
      have := List.of_mem_filter ho
      simpa using this
    have hprestart : ∀ o ∈ pre, o.start < a := by
      intro o ho
      have := List.mem_takeWhile_imp ho
      simpa using this
    have hlenL : L.length = pre.length + suf.length := by
      rw [← hsplit, List.length_append]
    have hj0 : pre.length ≤ j := by
      by_contra hlt
      push_neg at hlt
      have hq : L[j]? = pre[j]? := by
        conv_lhs => rw [← hsplit]
        exact List.getElem?_append_left hlt
      rw [List.getElem?_eq_getElem hj, List.getElem?_eq_getElem hlt] at hq
      have hstart2 : startAt L j < a := by
        rw [startAt_eq L j hj, List.get_eq_getElem]
        rw [Option.some.inj hq]
        exact hprestart _ (List.getElem_mem hlt)
      omega
    have hsufdrop : suf = L.drop pre.length := by
      conv_rhs => rw [← hsplit]
      rw [List.drop_left]
    have htake : L.take j = pre ++ suf.take (j - pre.length) := by
      conv_lhs => rw [← hsplit]
      rw [List.take_append_eq_append_take]
      rw [List.take_all_of_le hj0]
    have hdeq : d = j - pre.length := by
      rw [hd]
      unfold distAt
      rw [← ha]
      rw [htake, List.countP_append]
      have hc1 : pre.countP (fun o => decide (max rs o.start = a)) = 0 := by
        refine List.countP_eq_zero.mpr ?_
        intro o ho
        have := hprestart o ho
        simp only [decide_eq_true_eq]
        omega
      have hc2 : (suf.take (j - pre.length)).countP
          (fun o => decide (max rs o.start = a)) = j - pre.length := by
        have hall : ∀ o ∈ suf.take (j - pre.length),
            (fun o => decide (max rs o.start = a)) o = true := by
          intro o ho
          have h1 : a ≤ o.start := hsufstart o (List.take_subset _ _ ho)
          have ho2 : o ∈ L.take j := by
            rw [htake]
            exact List.mem_append_right pre ho
          have h2 : o.start ≤ startAt L j :=
            mem_take_start_le L hLs j hj o (mem_take_of_le (by omega) L o ho2)
          simp only [decide_eq_true_eq]
          omega
        rw [List.countP_eq_length.mpr hall, List.length_take]
        omega
      omega
    have hallsuf : ∀ (i : Nat) (_ : i < d) (hil : i < suf.length),
        (suf.get ⟨i, hil⟩).start = a := by
      intro i hi hil
      have hplt : pre.length + i < L.length := by omega
      have hq1 : suf[i]? = L[pre.length + i]? := by
        rw [hsufdrop, List.getElem?_drop]
      rw [List.getElem?_eq_getElem hil, List.getElem?_eq_getElem hplt] at hq1
      have hgeteq : suf.get ⟨i, hil⟩ = L.get ⟨pre.length + i, hplt⟩ := by
        have := Option.some.inj hq1
        simpa [List.get_eq_getElem] using this
      rw [hgeteq]
      have hge : a ≤ (L.get ⟨pre.length + i, hplt⟩).start := by
        rw [← hgeteq, List.get_eq_getElem]
        exact hsufstart _ (List.getElem_mem hil)
      have hle2 : (L.get ⟨pre.length + i, hplt⟩).start ≤ startAt L j := by
        rw [← startAt_eq L (pre.length + i) hplt]
        exact sorted_start_mono L hLs (pre.length + i) j (by omega) hj
      omega
    have hlensuf : d + 1 ≤ suf.length := by omega
    have happ := pickUp_ne_start source req a d hane suf hMdrop.symm hallsuf hlensuf
    have e1 : suf.drop (d + 2) = L.drop (j + 2) := by
      rw [hsufdrop, List.drop_drop]
      congr 1
      omega
    have e2 : suf[d]? = L[j]? := by
      rw [hsufdrop, List.getElem?_drop]
      congr 1
      omega
    have e3 : suf[d + 1]? = L[j + 1]? := by
      rw [hsufdrop, List.getElem?_drop]
      congr 1
      omega
    rw [e1, e2, e3] at happ
    exact happ

/-- One page driven from a token that lands on the canonical state at
`j`. -/
lemma runOnePage_stateAt (source : List Obj) (req : Request) (p j : Nat)
    (tok : Option String)
    (hsort : SortedStarts (search source req.start req.stop))
    (hj : j ≤ (search source req.start req.stop).length) (hp : 1 ≤ p)
    (hinit : intervalIteratorInit source { req with pageToken := tok } =
      .ok (stateAt (search source req.start req.stop) req.start j)) :
    runOnePage source req tok p =
      .ok (((search source req.start req.stop).drop j).take p,
        tokenAt (search source req.start req.stop) req.start
          (min (j + p) (search source req.start req.stop).length)) := by
  unfold runOnePage
  rw [hinit]
  dsimp only
  rw [drivePage_stateAt (search source req.start req.stop) req.start hsort p j hj hp]

/-- Page-by-page driving from any canonical entry state collects exactly
the remaining stream. -/
lemma collectPages_stateAt (source : List Obj) (req : Request) (p : Nat)
    (hsort : SortedStarts source) (hvalid : ValidIntervals source)
    (hp : 1 ≤ p) :
    ∀ (fuel j : Nat) (tok : Option String),
    j ≤ (search source req.start req.stop).length →
    (search source req.start req.stop).length - j < fuel →
    intervalIteratorInit source { req with pageToken := tok } =
      .ok (stateAt (search source req.start req.stop) req.start j) →
    collectPages source req p fuel tok =
      .ok ((search source req.start req.stop).drop j) := by
  have hLs : SortedStarts (search source req.start req.stop) :=
    search_sorted source req.start req.stop hsort
  intro fuel
  induction fuel with
  | zero => intro j tok hj hfuel hinit; omega
  | succ fuel ih =>
    intro j tok hj hfuel hinit
    rw [collectPages]
    rw [runOnePage_stateAt source req p j tok hLs hj hp hinit]
    dsimp only
    by_cases hlt : j + p < (search source req.start req.stop).length
    · have hmin2 : min (j + p) (search source req.start req.stop).length = j + p := by
        omega
      rw [hmin2]
      unfold tokenAt
      rw [if_pos hlt]
      dsimp only
      rw [ih (j + p) _ (by omega) (by omega)
        (resume_token source req hsort hvalid (j + p) hlt)]
      dsimp only
      have hjoin : ((search source req.start req.stop).drop j).take p ++
          (search source req.start req.stop).drop (j + p) =
          (search source req.start req.stop).drop j := by
        have hdd : (search source req.start req.stop).drop (j + p) =
            ((search source req.start req.stop).drop j).drop p := by
          rw [List.drop_drop]
        rw [hdd, List.take_append_drop]
      rw [hjoin]
    · have hmin2 : min (j + p) (search source req.start req.stop).length =
          (search source req.start req.stop).length := by omega
      rw [hmin2]
      unfold tokenAt
      rw [if_neg (by omega)]
      have : ((search source req.start req.stop).drop j).take p =
          (search source req.start req.stop).drop j := by
        refine List.take_all_of_le ?_
        rw [List.length_drop]
        omega
      rw [this]

lemma init_none_stateAt (source : List Obj) (req : Request) :
    intervalIteratorInit source { req with pageToken := none } =
      .ok (stateAt (search source req.start req.stop) req.start 0) := by
  unfold intervalIteratorInit
  dsimp only
  have : _initialiseIteration source { req with pageToken := none } =
      _initialiseIteration source req := rfl
  rw [this, initialise_eq_stateAt]

/-- A resume whose skip count does not land on the anchor's tie-group
boundary dies on the `assert`, not on a typed page-token error. -/
lemma pickUp_assert_fail (source : List Obj) (req : Request) (anchor : Int)
    (skip m : Nat) (hne : anchor ≠ req.start) (suf : List Obj)
    (hsuf : suf = (search source anchor req.stop).dropWhile
      (fun o => decide (o.start < anchor)))
    (hm : m < skip) (hml : m < suf.length)
    (hbad : (suf.get ⟨m, hml⟩).start ≠ anchor)
    (hpre : ∀ (i : Nat) (_ : i < m) (hil : i < suf.length),
      (suf.get ⟨i, hil⟩).start = anchor) :
    _pickUpIteration source req anchor (skip : Int) = .error .assertionError := by
  have hsufne : suf ≠ [] := by
    intro h; rw [h] at hml; simp at hml
  cases hM : search source anchor req.stop with
  | nil =>
    rw [hM] at hsuf; simp at hsuf; exact absurd hsuf hsufne
  | cons obj rest =>
    unfold _pickUpIteration
    rw [hM]
    dsimp only
    rw [if_neg hne]
    rw [discardBelow_spec]
    rw [hM] at hsuf
    rw [← hsuf]
    cases suf with
    | nil => exact absurd rfl hsufne
    | cons x xs =>
      have htn : ((skip : Int)).toNat = skip := rfl
      rw [htn]
      dsimp only
      rw [skipAtAnchor_assert_fail anchor skip x xs m hm hml hbad hpre]

/-! ## Claim-supporting lemmas -/

lemma mapPyInt_eq_none_iff (ts : List (List Char)) :
    mapPyInt ts = none ↔ ∃ t ∈ ts, pyInt t = none := by
  induction ts with
  | nil => simp [mapPyInt]
  | cons t ts ih =>
    cases h1 : pyInt t with
    | none => simp [mapPyInt, h1]
    | some v =>
      cases h2 : mapPyInt ts with
      | none =>
        refine iff_of_true (by simp [mapPyInt, h1, h2]) ?_
        obtain ⟨u, hu, hn⟩ := ih.mp h2
        exact ⟨u, List.mem_cons_of_mem _ hu, hn⟩
      | some vs =>
        simp only [mapPyInt, h1, h2]
        refine iff_of_false (by simp) ?_
        rintro ⟨u, hu, hn⟩
        rcases List.mem_cons.mp hu with rfl | hu
        · rw [h1] at hn; cases hn
        · rw [ih.mpr ⟨u, hu, hn⟩] at h2; cases h2

lemma intervalIteratorInit_pageSize_irrel (source : List Obj) (req : Request)
    (ps : Option Int) :
    intervalIteratorInit source { req with pageSize := ps } =
      intervalIteratorInit source req := rfl

lemma topLevelGenAux_length {α β : Type} (idMap : α → β) (idList : List α)
    (fuel k : Nat) (hfuel : idList.length ≤ k + fuel) :
    (topLevelGenAux idMap idList fuel k).length = idList.length - k := by
  induction fuel generalizing k with
  | zero => simp [topLevelGenAux]; omega
  | succ fuel ih =>
    cases hk : idList[k]? with
    | none =>
      have : idList.length ≤ k := by
        by_contra hlt
        rw [List.getElem?_eq_getElem (by omega)] at hk
        cases hk
      simp [topLevelGenAux, hk]
      omega
    | some a =>
      have hklt : k < idList.length := by
        by_contra hge
        rw [List.getElem?_eq_none (by omega)] at hk
        cases hk
      simp only [topLevelGenAux, hk, List.length_cons]
      rw [ih (k + 1) (by omega)]
      omega

lemma topLevelGenAux_get {α β : Type} (idMap : α → β) (idList : List α)
    (fuel k : Nat) (hfuel : idList.length ≤ k + fuel) :
    ∀ i, k + i < idList.length →
      (topLevelGenAux idMap idList fuel k)[i]? =
        (idList[k + i]?).map (fun a =>
          (idMap a,
            if k + i + 1 < idList.length then some (natStr (k + i + 1))
            else none)) := by
  induction fuel generalizing k with
  | zero => intro i hi; omega
  | succ fuel ih =>
    intro i hi
    have hklt : k < idList.length := by omega
    have hk : idList[k]? = some (idList[k]) := List.getElem?_eq_getElem hklt
    cases i with
    | zero =>
      simp only [topLevelGenAux, hk]
      simp [hk]
    | succ i =>
      simp only [topLevelGenAux, hk]
      have := ih (k + 1) (by omega) i (by omega)
      simpa [List.getElem?_cons_succ, Nat.add_assoc, Nat.add_comm 1 i,
        Nat.add_left_comm] using this

/-! ## The claims -/

/-- C1: for every source sequence of genuine intervals ordered by
non-decreasing start and every page size at least 1, driving the interval
iterator page by page through the issued continuation tokens (starting
from a null token) and concatenating the pages yields exactly the stream
a single run over the whole result count yields — no object omitted, none
duplicated, however many objects share a start coordinate. -/
theorem chunking_equivalence (source : List Obj) (req : Request)
    (p fuel : Nat)
    (hsort : SortedStarts source) (hvalid : ValidIntervals source)
    (hp : 1 ≤ p)
    (hfuel : (search source req.start req.stop).length + 1 ≤ fuel) :
    collectPages source req p fuel none =
      .ok (search source req.start req.stop) ∧
    drivePage (_initialiseIteration source req)
      (search source req.start req.stop).length =
      (search source req.start req.stop, none) := by
  constructor
  · have := collectPages_stateAt source req p hsort hvalid hp fuel 0 none
      (by omega) (by omega) (init_none_stateAt source req)
    simpa using this
  · rw [initialise_eq_stateAt]
    cases hL : search source req.start req.stop with
    | nil => rfl
    | cons x xs =>
      rw [← hL]
      have hlen : 1 ≤ (search source req.start req.stop).length := by
        rw [hL]; simp
      rw [drivePage_stateAt (search source req.start req.stop) req.start
        (search_sorted source req.start req.stop hsort)
        (search source req.start req.stop).length 0 (by omega) hlen]
      rw [List.drop_zero, List.take_all_of_le (le_refl _)]
      unfold tokenAt
      rw [if_neg (by omega)]

/-- Concrete instance of the chunking equivalence: the five-object
end-to-end source paged three at a time. -/
theorem chunking_equivalence_witness :
    collectPages endToEndSource endToEndRequest 3 6 none =
      .ok (search endToEndSource endToEndRequest.start endToEndRequest.stop) ∧
    drivePage (_initialiseIteration endToEndSource endToEndRequest)
      (search endToEndSource endToEndRequest.start endToEndRequest.stop).length =
      (search endToEndSource endToEndRequest.start endToEndRequest.stop, none) :=
  chunking_equivalence endToEndSource endToEndRequest 3 6 (by decide)
    (by decide) (by decide) (by decide)

/-- C2: resuming from a decoded token `(anchor, skip)` re-queries the
source over `(anchor, request.end)`; with the anchor still at the request
start the iterator skips forward exactly `skip` results unconditionally,
and with the anchor beyond it the iterator first discards every leading
result starting strictly below the anchor (on a sorted stream, all such
results) and then skips exactly `skip` further results starting at the
anchor; the next remaining result becomes `currentObject` and the one
after it `nextObject`. -/
theorem pickUpIteration_spec (source : List Obj) (req : Request)
    (anchor : Int) (skip : Nat) :
    (anchor = req.start →
      skip + 1 ≤ (search source anchor req.stop).length →
      _pickUpIteration source req anchor (skip : Int) =
        .ok { searchIterator := (search source anchor req.stop).drop (skip + 2),
              currentObject := (search source anchor req.stop)[skip]?,
              nextObject := (search source anchor req.stop)[skip + 1]?,
              anchor := some ⟨anchor, (skip : Int)⟩ }) ∧
    (anchor ≠ req.start →
      ∀ suf, suf = (search source anchor req.stop).dropWhile
          (fun o => decide (o.start < anchor)) →
      (∀ (i : Nat) (_ : i < skip) (hil : i < suf.length),
        (suf.get ⟨i, hil⟩).start = anchor) →
      skip + 1 ≤ suf.length →
      _pickUpIteration source req anchor (skip : Int) =
        .ok { searchIterator := suf.drop (skip + 2),
              currentObject := suf[skip]?,
              nextObject := suf[skip + 1]?,
              anchor := some ⟨anchor, (skip : Int)⟩ }) ∧
    (SortedStarts (search source anchor req.stop) →
      (search source anchor req.stop).dropWhile
          (fun o => decide (o.start < anchor)) =
        (search source anchor req.stop).filter
          (fun o => decide (anchor ≤ o.start))) :=
  ⟨fun h1 h2 => pickUp_eq_start source req anchor skip h1 h2,
   fun h1 suf h2 h3 h4 => pickUp_ne_start source req anchor skip h1 suf h2 h3 h4,
   fun hs => sorted_dropWhile_start_eq_filter _ anchor hs⟩

/-- Concrete instance of the equal-anchor resumption: skipping two results
inside the first tie-group of the end-to-end source. -/
theorem pickUpIteration_spec_witness :
    _pickUpIteration endToEndSource eqStartRequest 10 ((2 : Nat) : Int) =
      .ok { searchIterator :=
              (search endToEndSource 10 eqStartRequest.stop).drop 4,
            currentObject := (search endToEndSource 10 eqStartRequest.stop)[2]?,
            nextObject := (search endToEndSource 10 eqStartRequest.stop)[3]?,
            anchor := some ⟨10, ((2 : Nat) : Int)⟩ } :=
  (pickUpIteration_spec endToEndSource eqStartRequest 10 2).1 rfl (by decide)

/-- C3 (counterexample): on the `[5,5,5,7]` source with page size 2 the
first page's continuation token is `"5:2"`, not `"5:1"`, and resuming with
`"5:1"` re-emits item 1 — the claim's token value and its resumption
behaviour are both contradicted at this input. -/
theorem tieHandling_counterexample :
    runOnePage tieSource tieRequest none 2 =
      .ok ([⟨5, 8, 0⟩, ⟨5, 8, 1⟩], some "5:2") ∧
    (some "5:2" : Option String) ≠ some "5:1" ∧
    runOnePage tieSource tieRequest (some "5:1") 2 =
      .ok ([⟨5, 8, 1⟩, ⟨5, 8, 2⟩], some "7:0") := by decide

/-- C3 (amended): on the `[5,5,5,7]` source with page size 2 the first
page holds items 0 and 1 with continuation token `"5:2"`, and resuming
with `"5:2"` yields item 2 then item 3 (the anchor moving to 7) with a
null final token — no duplication, no omission. -/
theorem tieHandling_amended :
    runOnePage tieSource tieRequest none 2 =
      .ok ([⟨5, 8, 0⟩, ⟨5, 8, 1⟩], some "5:2") ∧
    runOnePage tieSource tieRequest (some "5:2") 2 =
      .ok ([⟨5, 8, 2⟩, ⟨7, 10, 3⟩], none) := by decide

/-- C4: on the `[10,10,20,20,20]` source with page size 3 the first page
holds items 0..2 (starts 10, 10, 20) with continuation token `"20:1"`,
and the second page requested with `"20:1"` holds items 3..4 (starts
20, 20) with a null continuation token. -/
theorem endToEnd_pagination :
    runOnePage endToEndSource endToEndRequest none 3 =
      .ok ([⟨10, 15, 0⟩, ⟨10, 15, 1⟩, ⟨20, 25, 2⟩], some "20:1") ∧
    runOnePage endToEndSource endToEndRequest (some "20:1") 3 =
      .ok ([⟨20, 25, 3⟩, ⟨20, 25, 4⟩], none) := by decide

/-- C5: initialised without a page token, the iterator queries the source
over `(request.start, request.end)`, buffers the first two results, starts
the distance at 0, and anchors at the first result's start exactly when
that start strictly exceeds `request.start`, else at `request.start`. -/
theorem initialiseIteration_spec (source : List Obj) (req : Request)
    (o : Obj) (rest : List Obj)
    (h : search source req.start req.stop = o :: rest) :
    _initialiseIteration source req =
      { searchIterator := rest.tail, currentObject := some o,
        nextObject := rest.head?,
        anchor := some ⟨if o.start > req.start then o.start else req.start, 0⟩ } ∧
    (o.start > req.start →
      (_initialiseIteration source req).anchor = some ⟨o.start, 0⟩) ∧
    (¬ o.start > req.start →
      (_initialiseIteration source req).anchor = some ⟨req.start, 0⟩) := by
  have hmain : _initialiseIteration source req =
      { searchIterator := rest.tail, currentObject := some o,
        nextObject := rest.head?,
        anchor := some ⟨if o.start > req.start then o.start else req.start, 0⟩ } := by
    unfold _initialiseIteration
    rw [h]
    cases rest <;> simp [takeNext]
  refine ⟨hmain, fun hgt => ?_, fun hle => ?_⟩
  · rw [hmain]; simp [hgt]
  · rw [hmain]; simp [hle]

/-- Concrete instance of the initialisation spec: the tie-handling source
queried from 0 anchors at the first object's start, 5. -/
theorem initialiseIteration_spec_witness :
    _initialiseIteration tieSource tieRequest =
      { searchIterator := [⟨5, 8, 2⟩, ⟨7, 10, 3⟩],
        currentObject := some ⟨5, 8, 0⟩,
        nextObject := some ⟨5, 8, 1⟩,
        anchor := some ⟨if (5 : Int) > tieRequest.start then 5
          else tieRequest.start, 0⟩ } ∧
    (_initialiseIteration tieSource tieRequest).anchor = some ⟨5, 0⟩ := by
  have := initialiseIteration_spec tieSource tieRequest ⟨5, 8, 0⟩
    [⟨5, 8, 1⟩, ⟨5, 8, 2⟩, ⟨7, 10, 3⟩] (by decide)
  exact ⟨this.1, this.2.1 (by decide)⟩

/-- C6: `_parsePageToken` splits the token on `:` and fails with the
BadPageToken error exactly when the field count differs from the requested
arity or some field is not a base-10 integer; a conforming token decodes
to its list of integers, and the one-field token `"5"` submitted where two
fields are expected is rejected. -/
theorem parsePageToken_spec (s : String) (n : Nat) :
    (_parsePageToken s n = .error .badPageToken ↔
      (splitColon s.data).length ≠ n ∨ ∃ t ∈ splitColon s.data, pyInt t = none) ∧
    (∀ vs, (splitColon s.data).length = n →
      mapPyInt (splitColon s.data) = some vs →
      _parsePageToken s n = .ok vs) ∧
    _parsePageToken "5" 2 = .error .badPageToken := by
  refine ⟨?_, ?_, by decide⟩
  · unfold _parsePageToken
    by_cases hl : (splitColon s.data).length = n
    · rw [if_neg (by simp [hl])]
      cases h2 : mapPyInt (splitColon s.data) with
      | none =>
        exact iff_of_true rfl (Or.inr ((mapPyInt_eq_none_iff _).mp h2))
      | some vs =>
        refine iff_of_false (by simp) ?_
        rintro (h | h)
        · exact h hl
        · rw [(mapPyInt_eq_none_iff _).mpr h] at h2; cases h2
    · rw [if_pos hl]
      exact iff_of_true rfl (Or.inl hl)
  · intro vs hl hm
    unfold _parsePageToken
    rw [if_neg (by simp [hl]), hm]

/-- C7: `runSearchRequest` substitutes the configured default page size
when the request carries none, and rejects a non-positive (possibly
defaulted) page size with BadPageSize uniformly in the source — the
validation runs before the iterator is built, so the rejected request
queries no source. -/
theorem runSearchRequest_pageSize_spec (b : Backend) (source : List Obj)
    (req : Request) :
    (req.pageSize = none →
      runIntervalSearchRequest b source req =
        runIntervalSearchRequest b source
          { req with pageSize := some b.defaultPageSize }) ∧
    (∀ ps, req.pageSize.getD b.defaultPageSize = ps → ps ≤ 0 →
      runIntervalSearchRequest b source req = .error (.badPageSize ps)) := by
  constructor
  · intro h
    unfold runIntervalSearchRequest
    dsimp only
    rw [h, intervalIteratorInit_pageSize_irrel source req (some b.defaultPageSize)]
  · intro ps hps hle
    unfold runIntervalSearchRequest
    cases hn : req.pageSize with
    | none =>
      rw [hn] at hps
      simp only [Option.getD_none] at hps
      subst hps
      rw [if_pos hle]
    | some p =>
      rw [hn] at hps
      simp only [Option.getD_some] at hps
      subst hps
      rw [if_pos hle]

/-- Concrete instance of page-size validation: a request with page size
-1 is rejected on an arbitrary populated source, and a request without a
page size behaves as one carrying the configured default. -/
theorem runSearchRequest_pageSize_spec_witness :
    runIntervalSearchRequest ⟨100⟩ endToEndSource ⟨0, 100, none, some (-1)⟩ =
      .error (.badPageSize (-1)) ∧
    runIntervalSearchRequest ⟨100⟩ endToEndSource ⟨0, 100, none, none⟩ =
      runIntervalSearchRequest ⟨100⟩ endToEndSource ⟨0, 100, none, some 100⟩ :=
  ⟨(runSearchRequest_pageSize_spec ⟨100⟩ endToEndSource
      ⟨0, 100, none, some (-1)⟩).2 (-1) rfl (by decide),
   (runSearchRequest_pageSize_spec ⟨100⟩ endToEndSource
      ⟨0, 100, none, none⟩).1 rfl⟩

/-- C8: the top-level paginator started at any index emits the mapped
objects at successive increasing indices one at a time, pairing each with
`str(index + 1)` while further identifiers remain and with a null token at
the last identifier. -/
theorem topLevelGenerator_spec {α β : Type} (idMap : α → β)
    (idList : List α) (k : Nat) :
    (_topLevelObjectGenerator idMap idList k).length = idList.length - k ∧
    ∀ i, k + i < idList.length →
      (_topLevelObjectGenerator idMap idList k)[i]? =
        (idList[k + i]?).map (fun a =>
          (idMap a,
            if k + i + 1 < idList.length then some (natStr (k + i + 1))
            else none)) := by
  constructor
  · exact topLevelGenAux_length idMap idList idList.length k (by omega)
  · exact topLevelGenAux_get idMap idList idList.length k (by omega)

/-- C9: during resume beyond the request start, every result consumed by
the skip loop must start exactly at the anchor — a skip count crossing a
tie-group boundary is a fatal `AssertionError`, not a recoverable
BadPageToken error — and conversely a token the iterator itself issued
over unchanged sorted data (the anchor and distance of any stream
position) resumes cleanly, so the assertion never fires. -/
theorem resume_assert_boundary (source : List Obj) (req : Request) :
    (∀ (anchor : Int) (skip m : Nat) (suf : List Obj),
      anchor ≠ req.start →
      suf = (search source anchor req.stop).dropWhile
        (fun o => decide (o.start < anchor)) →
      m < skip → ∀ (hml : m < suf.length),
      (suf.get ⟨m, hml⟩).start ≠ anchor →
      (∀ (i : Nat) (_ : i < m) (hil : i < suf.length),
        (suf.get ⟨i, hil⟩).start = anchor) →
      _pickUpIteration source req anchor (skip : Int) =
        .error .assertionError) ∧
    (∀ j : Nat, SortedStarts source → ValidIntervals source →
      j < (search source req.start req.stop).length →
      intervalIteratorInit source { req with pageToken := some (encodeToken
        (anchorAt (search source req.start req.stop) req.start j)
        ((distAt (search source req.start req.stop) req.start j : Nat) : Int)) } =
        .ok (stateAt (search source req.start req.stop) req.start j) ∧
      intervalIteratorInit source { req with pageToken := some (encodeToken
        (anchorAt (search source req.start req.stop) req.start j)
        ((distAt (search source req.start req.stop) req.start j : Nat) : Int)) } ≠
        .error .assertionError) := by
  constructor
  · intro anchor skip m suf hne hsuf hm hml hbad hpre
    exact pickUp_assert_fail source req anchor skip m hne suf hsuf hm hml hbad hpre
  · intro j hsort hvalid hj
    have hres := resume_token source req hsort hvalid j hj
    refine ⟨hres, ?_⟩
    rw [hres]
    intro hcon
    cases hcon

/-- Concrete instance of the boundary assertion: resuming the two-group
source with anchor 5 and skip 2 crosses into the start-7 group and dies on
the assertion, while the token issued at stream position 1 resumes
cleanly. -/
theorem resume_assert_boundary_witness :
    _pickUpIteration assertSource assertRequest 5 ((2 : Nat) : Int) =
      .error .assertionError ∧
    intervalIteratorInit assertSource
      { assertRequest with pageToken := some (encodeToken
        (anchorAt (search assertSource assertRequest.start assertRequest.stop)
          assertRequest.start 1)
        ((distAt (search assertSource assertRequest.start assertRequest.stop)
          assertRequest.start 1 : Nat) : Int)) } ≠
      .error .assertionError := by
  constructor
  · refine (resume_assert_boundary assertSource assertRequest).1 5 2 1
      [⟨5, 8, 0⟩, ⟨7, 10, 1⟩] (by decide) (by decide) (by omega)
      (by decide) (by decide) ?_
    intro i hi hil
    interval_cases i
    rfl
  · exact ((resume_assert_boundary assertSource assertRequest).2 1
      (by decide) (by decide) (by decide)).2

/-- C10: a well-formed two-field token whose re-query holds fewer than
`skip + 1` results — here an empty re-query on an empty source, and a
one-object re-query asked to skip three — makes iterator construction
raise the raw `StopIteration`, an exception outside the typed error
taxonomy, rather than BadPageToken or a normal empty page. -/
theorem pickUp_raw_stopIteration :
    intervalIteratorInit [] ⟨0, 10, some "5:2", none⟩ =
      .error .stopIteration ∧
    intervalIteratorInit [⟨5, 8, 0⟩] ⟨0, 10, some "5:3", none⟩ =
      .error .stopIteration ∧
    (Except.error PyError.stopIteration : Except PyError IterState) ≠
      .error .badPageToken := by decide
